import Mathlib

/-!
Shallow embedding of the `candy-for-charon` IR transformation pipeline,
focused on the guard-pattern simplifier (`src/charon/src/simplify_binops.rs`),
the expression/place vocabulary it operates on (`src/charon/src/expressions.rs`
and the `cfim_ast` statement tree it imports), and the declaration re-indexing
pass (`src/charon/src/rust_to_local_ids.rs`).

Rust panics (`assert!`, `unreachable!`, `unwrap`) are modelled by `Option`:
`none` is a panic/abort, `some x` is normal termination with result `x`.
-/

namespace Candy

/-! ## Identifiers (index types generated by `generate_index_type!`) -/

abbrev VarId := Nat
abbrev FieldId := Nat
abbrev VariantId := Nat
abbrev TypeDefId := Nat

/-! ## Places and projections (`src/charon/src/expressions.rs`) -/

/-- `FieldProjKind` from `expressions.rs`: projections from ADTs or tuples
(for tuples the payload is the arity). -/
inductive FieldProjKind where
  | Adt (def_id : TypeDefId) (variant_id : Option VariantId)
  | Tuple (arity : Nat)
  deriving DecidableEq, Repr

/-- `ProjectionElem` from `expressions.rs`. -/
inductive ProjectionElem where
  | Deref
  | DerefBox
  | Field (kind : FieldProjKind) (field_id : FieldId)
  | Downcast (variant_id : VariantId)
  deriving DecidableEq, Repr

abbrev Projection := List ProjectionElem

/-- `Place` from `expressions.rs`: a variable plus a projection path. -/
structure Place where
  var_id : VarId
  projection : Projection
  deriving DecidableEq, Repr

/-! ## Values (`values.rs` is not under `src/`).

Modelled from the spec: `values.rs` (the `ScalarValue` and `ConstantValue`
types) is not among the provided sources. The spec describes operand
constants as literal values; the simplifier only queries `is_int`,
`as_int` and `as_uint` of a scalar, so a scalar is modelled as a signed
(`is_int`) or unsigned machine integer. -/
inductive ScalarValue where
  | SInt (v : Int)
  | UInt (v : Nat)
  deriving DecidableEq, Repr

def ScalarValue.is_int : ScalarValue → Bool
  | .SInt _ => true
  | .UInt _ => false

def ScalarValue.as_int : ScalarValue → Option Int
  | .SInt v => some v
  | .UInt _ => none

def ScalarValue.as_uint : ScalarValue → Option Nat
  | .SInt _ => none
  | .UInt v => some v

/-- Modelled from the spec: the `ConstantValue` enumeration of `values.rs`
(not under `src/`) — a scalar, boolean, character or string literal. -/
inductive ConstantValue where
  | Scalar (v : ScalarValue)
  | Bool (v : Bool)
  | Char (v : Char)
  | Str (v : String)
  deriving DecidableEq, Repr

/-- Modelled from the spec: the erased-type annotation `ETy` of `types.rs`
(not under `src/`). No behavior of the simplifier depends on it, so it is
kept as an opaque index. -/
abbrev ETy := Nat

/-- `OperandConstantValue` from `expressions.rs`. -/
inductive OperandConstantValue where
  | ConstantValue (v : ConstantValue)
  | Adt (def_id : TypeDefId)
  | Unit
  deriving DecidableEq, Repr

/-- `Operand` from `expressions.rs`. -/
inductive Operand where
  | Copy (p : Place)
  | Move (p : Place)
  | Constant (ty : ETy) (v : OperandConstantValue)
  deriving DecidableEq, Repr

/-- `BorrowKind` from `expressions.rs`. -/
inductive BorrowKind where
  | Shared
  | Mut
  | TwoPhaseMut
  deriving DecidableEq, Repr

/-- `UnOp` from `expressions.rs`. -/
inductive UnOp where
  | Not
  | Neg
  deriving DecidableEq, Repr

/-- `BinOp` from `expressions.rs` (same constructor order as the source). -/
inductive BinOp where
  | BitXor
  | BitAnd
  | BitOr
  | Eq
  | Lt
  | Le
  | Ne
  | Ge
  | Gt
  | Div
  | Rem
  | Add
  | Sub
  | Mul
  | Shl
  | Shr
  deriving DecidableEq, Repr

/-- `AggregateKind` from `expressions.rs`. -/
inductive AggregateKind where
  | Tuple
  | Adt (def_id : TypeDefId) (variant_id : Option VariantId)
  deriving DecidableEq, Repr

/-- `Rvalue` from `expressions.rs`. -/
inductive Rvalue where
  | Use (op : Operand)
  | Ref (p : Place) (kind : BorrowKind)
  | UnaryOp (op : UnOp) (x : Operand)
  | BinaryOp (op : BinOp) (x : Operand) (y : Operand)
  | Discriminant (p : Place)
  | Aggregate (kind : AggregateKind) (ops : List Operand)
  deriving DecidableEq, Repr

/-! ## Place-similarity check (`simplify_binops.rs`, lines 17-35) -/

/-- `check_places_similar_but_last_proj_elem`: return true iff
`place ++ [pelem] == full_place`, checked index by index as in the source. -/
def check_places_similar_but_last_proj_elem
    (place : Place) (pelem : ProjectionElem) (full_place : Place) : Bool :=
  if place.var_id = full_place.var_id ∧
      place.projection.length + 1 = full_place.projection.length then
    if (List.range place.projection.length).all fun i =>
        place.projection.getD i ProjectionElem.Deref =
          full_place.projection.getD i ProjectionElem.Deref then
      pelem = full_place.projection.getD place.projection.length ProjectionElem.Deref
    else
      false
  else
    false

/-! ## Fallibility classification (`simplify_binops.rs`, lines 39-80) -/

/-- `binop_requires_assert_after`: ops whose result must be checked
(overflow family). -/
def binop_requires_assert_after (binop : BinOp) : Bool :=
  match binop with
  | .BitXor | .BitAnd | .BitOr | .Eq | .Lt | .Le | .Ne | .Ge | .Gt
  | .Div | .Rem => false
  | .Add | .Sub | .Mul | .Shl | .Shr => true

/-- `binop_requires_assert_before`: ops with a precondition (zero divisor). -/
def binop_requires_assert_before (binop : BinOp) : Bool :=
  match binop with
  | .BitXor | .BitAnd | .BitOr | .Eq | .Lt | .Le | .Ne | .Ge | .Gt
  | .Add | .Sub | .Mul | .Shl | .Shr => false
  | .Div | .Rem => true

/-- `binop_can_fail`. -/
def binop_can_fail (binop : BinOp) : Bool :=
  binop_requires_assert_after binop || binop_requires_assert_before binop

/-! ## The structured statement tree (`cfim_ast`).

Modelled from the spec: `cfim_ast.rs` is not among the provided sources; its
shape is pinned by the spec's structured-statement list (§3) and by every
pattern the simplifier (`simplify_binops.rs`, which is under `src/`) matches
against it: statements `Assign`, `FakeRead`, `SetDiscriminant`, `Drop`,
`Assert`, `Call`, `Panic`, `Return`, `Break`, `Continue`, `Nop`, and
expressions `Statement`, `Switch` (boolean `If` or integer `SwitchInt` with
an insertion-ordered branch map), `Loop` and `Sequence`. -/

/-- `Assert` (cond operand plus expected boolean). -/
structure Assert where
  cond : Operand
  expected : Bool
  deriving DecidableEq, Repr

/-- Modelled from the spec: a call carries a function id, argument operands
and a destination place. -/
structure Call where
  func : Nat
  args : List Operand
  dest : Place
  deriving DecidableEq, Repr

/-- Modelled from the spec: integer types tagging a `SwitchInt`. Opaque to
the simplifier. -/
abbrev IntegerTy := Nat

/-- The flat (non-recursive) statements of the structured AST. -/
inductive Statement where
  | Assign (p : Place) (rv : Rvalue)
  | FakeRead (p : Place)
  | SetDiscriminant (p : Place) (variant_id : VariantId)
  | Drop (p : Place)
  | Assert (a : Assert)
  | Call (c : Call)
  | Panic
  | Return
  | Break (index : Nat)
  | Continue (index : Nat)
  | Nop
  deriving DecidableEq, Repr

mutual
/-- The structured expression tree the simplifier rewrites. -/
inductive Expression where
  | Statement (st : Statement)
  | Switch (op : Operand) (targets : SwitchTargets)
  | Loop (body : Expression)
  | Sequence (exp1 : Expression) (exp2 : Expression)

/-- Targets of a `Switch`: boolean if/else, or an integer switch carrying an
insertion-ordered value-to-branch map plus an otherwise branch. -/
inductive SwitchTargets where
  | If (true_exp : Expression) (false_exp : Expression)
  | SwitchInt (int_ty : IntegerTy) (targets : List (ScalarValue × Expression))
      (otherwise : Expression)
end

/-- Models Rust's `assert!`: `none` is the panic. -/
def rust_assert (b : Bool) : Option Unit :=
  if b then some () else none

/-! ## The guard-pattern simplifier (`simplify_binops.rs`, lines 82-369) -/

/-- `check_if_simplifiable_binop_then_assert` (lines 120-158): make sure the
three expressions match the operation-then-check pattern; any mismatch is an
`assert!`/`unreachable!` panic (`none`). -/
def check_if_simplifiable_binop_then_assert
    (exp1 exp2 exp3 : Expression) : Option Unit :=
  match exp1, exp2, exp3 with
  | .Statement (.Assign bp (.BinaryOp binop _op1 _op2)),
    .Statement (.Assert ⟨.Move cond_op, expected⟩),
    .Statement (.Assign _mp (.Use (.Move mr))) => do
      rust_assert (binop_requires_assert_after binop)
      rust_assert (!expected)
      let check1 := check_places_similar_but_last_proj_elem bp
        (.Field (.Tuple 2) 1) cond_op
      rust_assert check1
      let check2 := check_places_similar_but_last_proj_elem bp
        (.Field (.Tuple 2) 0) mr
      rust_assert check2
  | _, _, _ => none

/-- `check_if_binop_then_assert` (lines 89-111): true iff the first
expression assigns a checked binop; if so the exact shape of the whole
window is enforced by assertion. -/
def check_if_binop_then_assert (exp1 exp2 exp3 : Expression) : Option Bool :=
  match exp1 with
  | .Statement (.Assign _ (.BinaryOp binop _ _)) =>
    if binop_requires_assert_after binop then do
      let _ ← check_if_simplifiable_binop_then_assert exp1 exp2 exp3
      pure true
    else
      pure false
  | _ => pure false

/-- `simplify_binop_then_assert` (lines 175-188): collapse the window to a
single assignment of the binop into the real destination. -/
def simplify_binop_then_assert (exp1 exp2 exp3 : Expression) : Option Expression :=
  match exp1, exp2, exp3 with
  | .Statement (.Assign _ binop),
    .Statement (.Assert _),
    .Statement (.Assign mp _) =>
      some (.Statement (.Assign mp binop))
  | _, _, _ => none

/-- `check_if_simplifiable_assert_then_binop` (lines 225-266). -/
def check_if_simplifiable_assert_then_binop
    (exp1 exp2 exp3 : Expression) : Option Unit :=
  match exp1, exp2, exp3 with
  | .Statement (.Assign eq_dest (.BinaryOp .Eq (.Copy eq_op1)
      (.Constant _ (.ConstantValue (.Scalar scalar_value))))),
    .Statement (.Assert ⟨.Move cond_op, expected⟩),
    .Statement (.Assign _mp (.BinaryOp binop _dividend (.Move divisor))) => do
      rust_assert (binop_requires_assert_before binop)
      rust_assert (!expected)
      rust_assert (decide (eq_op1 = divisor))
      rust_assert (decide (eq_dest = cond_op))
      if scalar_value.is_int then do
        let v ← scalar_value.as_int
        rust_assert (decide (v = 0))
      else do
        let v ← scalar_value.as_uint
        rust_assert (decide (v = 0))
  | _, _, _ => none

/-- `check_if_assert_then_binop` (lines 193-216): true iff the third
expression assigns an assert-before binop (division/remainder); if so the
exact shape of the whole window is enforced by assertion. -/
def check_if_assert_then_binop (exp1 exp2 exp3 : Expression) : Option Bool :=
  match exp3 with
  | .Statement (.Assign _ (.BinaryOp binop _ _)) =>
    if binop_requires_assert_before binop then do
      let _ ← check_if_simplifiable_assert_then_binop exp1 exp2 exp3
      pure true
    else
      pure false
  | _ => pure false

/-- `simplify_assert_then_binop` (lines 280-286): drop the two guard
statements, keep the operation. -/
def simplify_assert_then_binop
    (_exp1 _exp2 exp3 : Expression) : Expression :=
  exp3

/-- `statement_is_faillible_binop` (lines 290-295). -/
def statement_is_faillible_binop (st : Statement) : Bool :=
  match st with
  | .Assign _ (.BinaryOp binop _ _) => binop_can_fail binop
  | _ => false

mutual
/-- `simplify_exp` (lines 297-359). The source's two nested `match`es on the
tail of a `Sequence` bind catch-all arms for "not a `Sequence`"; here those
catch-alls are expanded into the three non-`Sequence` constructors. -/
def simplify_exp : Expression → Option Expression
  | .Statement st => do
      rust_assert (!statement_is_faillible_binop st)
      pure (.Statement st)
  | .Switch op (.If exp1 exp2) => do
      let exp1' ← simplify_exp exp1
      let exp2' ← simplify_exp exp2
      pure (.Switch op (.If exp1' exp2'))
  | .Switch op (.SwitchInt int_ty targets otherwise) => do
      let targets' ← simplify_switch_targets targets
      let otherwise' ← simplify_exp otherwise
      pure (.Switch op (.SwitchInt int_ty targets' otherwise'))
  | .Loop loop_body => do
      let body' ← simplify_exp loop_body
      pure (.Loop body')
  | .Sequence exp1 (.Sequence exp2 (.Sequence exp3 exp4)) => do
      let b1 ← check_if_binop_then_assert exp1 exp2 exp3
      if b1 then do
        let e ← simplify_binop_then_assert exp1 exp2 exp3
        let exp4' ← simplify_exp exp4
        pure (.Sequence e exp4')
      else do
        let b2 ← check_if_assert_then_binop exp1 exp2 exp3
        if b2 then do
          let e := simplify_assert_then_binop exp1 exp2 exp3
          let exp4' ← simplify_exp exp4
          pure (.Sequence e exp4')
        else do
          let exp1' ← simplify_exp exp1
          let rest' ← simplify_exp (.Sequence exp2 (.Sequence exp3 exp4))
          pure (.Sequence exp1' rest')
  | .Sequence exp1 (.Sequence exp2 (.Statement st)) => do
      let exp1' ← simplify_exp exp1
      let rest' ← simplify_exp (.Sequence exp2 (.Statement st))
      pure (.Sequence exp1' rest')
  | .Sequence exp1 (.Sequence exp2 (.Switch op targets)) => do
      let exp1' ← simplify_exp exp1
      let rest' ← simplify_exp (.Sequence exp2 (.Switch op targets))
      pure (.Sequence exp1' rest')
  | .Sequence exp1 (.Sequence exp2 (.Loop body)) => do
      let exp1' ← simplify_exp exp1
      let rest' ← simplify_exp (.Sequence exp2 (.Loop body))
      pure (.Sequence exp1' rest')
  | .Sequence exp1 (.Statement st) => do
      let exp1' ← simplify_exp exp1
      let exp2' ← simplify_exp (.Statement st)
      pure (.Sequence exp1' exp2')
  | .Sequence exp1 (.Switch op targets) => do
      let exp1' ← simplify_exp exp1
      let exp2' ← simplify_exp (.Switch op targets)
      pure (.Sequence exp1' exp2')
  | .Sequence exp1 (.Loop body) => do
      let exp1' ← simplify_exp exp1
      let exp2' ← simplify_exp (.Loop body)
      pure (.Sequence exp1' exp2')

/-- The `LinkedHashMap::from_iter(targets.into_iter().map(...))` part of the
`SwitchInt` arm: simplify each branch in insertion order. -/
def simplify_switch_targets :
    List (ScalarValue × Expression) → Option (List (ScalarValue × Expression))
  | [] => pure []
  | (v, e) :: rest => do
      let e' ← simplify_exp e
      let rest' ← simplify_switch_targets rest
      pure ((v, e') :: rest')
end

/-- Modelled from the spec: a `cfim_ast` function definition, reduced to the
fields the simplifier touches (a name for tracing and the structured body). -/
structure FunDef where
  name : String
  body : Expression

/-- `simplify_def` (lines 361-365). -/
def simplify_def (d : FunDef) : Option FunDef := do
  let body' ← simplify_exp d.body
  pure { name := d.name, body := body' }

/-- `simplify` (lines 367-369). -/
def simplify (defs : List FunDef) : Option (List FunDef) :=
  defs.mapM simplify_def

/-! ## Tree predicates used to state the invariants -/

/-- Is the expression a `Sequence` node? -/
def Expression.isSequence (e : Expression) : Bool :=
  match e with
  | .Sequence _ _ => true
  | _ => false

mutual
/-- No `Sequence` node's first component is itself a `Sequence`
(the right-associated canonical form of `llbc_ast.rs`, lines 67-71). -/
def exp_canonical : Expression → Bool
  | .Statement _ => true
  | .Switch _ (.If exp1 exp2) => exp_canonical exp1 && exp_canonical exp2
  | .Switch _ (.SwitchInt _ targets otherwise) =>
      targets_canonical targets && exp_canonical otherwise
  | .Loop body => exp_canonical body
  | .Sequence exp1 exp2 =>
      !exp1.isSequence && exp_canonical exp1 && exp_canonical exp2

/-- `exp_canonical` over the branches of an integer switch. -/
def targets_canonical : List (ScalarValue × Expression) → Bool
  | [] => true
  | (_, e) :: rest => exp_canonical e && targets_canonical rest
end

mutual
/-- No statement of the tree is an assignment of a fallible binary
operation. -/
def exp_no_faillible_binop : Expression → Bool
  | .Statement st => !statement_is_faillible_binop st
  | .Switch _ (.If exp1 exp2) =>
      exp_no_faillible_binop exp1 && exp_no_faillible_binop exp2
  | .Switch _ (.SwitchInt _ targets otherwise) =>
      targets_no_faillible_binop targets && exp_no_faillible_binop otherwise
  | .Loop body => exp_no_faillible_binop body
  | .Sequence exp1 exp2 =>
      exp_no_faillible_binop exp1 && exp_no_faillible_binop exp2

/-- `exp_no_faillible_binop` over the branches of an integer switch. -/
def targets_no_faillible_binop : List (ScalarValue × Expression) → Bool
  | [] => true
  | (_, e) :: rest => exp_no_faillible_binop e && targets_no_faillible_binop rest
end

/-! ## Declaration re-indexing (`src/charon/src/rust_to_local_ids.rs`) -/

/-- Modelled from the spec: `DefId`, the rust compiler's definition
identifier (from `rustc_hir`, external to the repository), kept opaque. -/
abbrev DefId := Nat

/-- Modelled from the spec: `reorder_decls.rs` is not among the provided
sources; §1 describes its output as "an already-computed ordered list of
declaration groups", a group being one non-recursive declaration or a batch
of mutually recursive ones. -/
inductive GDeclarationGroup (Id : Type) where
  | NonRec (id : Id)
  | Rec (ids : List Id)
  deriving DecidableEq, Repr

/-- A declaration group tagged by declaration kind (type, function or
global); `Type'` stands for the source's `Type` variant. -/
inductive DeclarationGroup (TypeId FunId GlobalId : Type) where
  | Type' (g : GDeclarationGroup TypeId)
  | Fun (g : GDeclarationGroup FunId)
  | Global (g : GDeclarationGroup GlobalId)
  deriving DecidableEq, Repr

/-- `rd::AnyDeclId`, tagging one identifier by declaration kind. -/
inductive AnyDeclId (TypeId FunId GlobalId : Type) where
  | Type' (id : TypeId)
  | Fun (id : FunId)
  | Global (id : GlobalId)
  deriving DecidableEq, Repr

/-- `AnyDeclRid`: kind-tagged rust identifiers. -/
abbrev AnyDeclRid := AnyDeclId DefId DefId DefId

/-- Kind-tagged translation (local) identifiers. -/
abbrev AnyDeclLid := AnyDeclId Nat Nat Nat

/-- Modelled from the spec: `rd::DeclInfo` of `reorder_decls.rs` (not under
`src/`) carries the transparency flag that `DeclInfo::new` copies. -/
structure RdDeclInfo where
  is_transparent : Bool
  deriving DecidableEq, Repr

/-- `DeclInfo` (`rust_to_local_ids.rs`, lines 22-40). -/
structure DeclInfo where
  rid : DefId
  is_transparent : Bool
  deriving DecidableEq, Repr

/-- `DeclInfo::new`. -/
def DeclInfo.new (rid : DefId) (info : RdDeclInfo) : DeclInfo :=
  ⟨rid, info.is_transparent⟩

/-- `HashMap`s are modelled extensionally as partial functions. -/
abbrev Map (K V : Type) := K → Option V

def mapEmpty {K V : Type} : Map K V := fun _ => none

def mapInsert {K V : Type} [DecidableEq K] (m : Map K V) (k : K) (v : V) :
    Map K V :=
  fun q => if q = k then some v else m q

/-- The input of `rust_to_local_ids` (`rd::DeclarationsGroups`): the ordered
groups plus the per-declaration info of the reordering stage. -/
structure DeclarationsGroups where
  decls : List (DeclarationGroup DefId DefId DefId)
  decls_info : Map AnyDeclRid RdDeclInfo

/-- `OrderedDecls` (lines 71-85), without the file-name bookkeeping of lines
159-176: the `FileName`/`FileId` types live in `meta.rs`, which is not among
the provided sources, and that bookkeeping neither reads nor writes the
declaration data the claims are about. -/
structure OrderedDecls where
  decls : List (DeclarationGroup Nat Nat Nat)
  decls_info : Map AnyDeclLid DeclInfo
  type_rid_to_id : Map DefId Nat
  fun_rid_to_id : Map DefId Nat
  global_rid_to_id : Map DefId Nat

/-- `add_type_info` (lines 43-51); the source's `unwrap` of the lookup is
the `Option` bind. -/
def add_type_info (src : Map AnyDeclRid RdDeclInfo)
    (dst : Map AnyDeclLid DeclInfo) (rid : DefId) (id : Nat) :
    Option (Map AnyDeclLid DeclInfo) := do
  let info ← src (.Type' rid)
  pure (mapInsert dst (.Type' id) (DeclInfo.new rid info))

/-- `add_function_info` (lines 52-60). -/
def add_function_info (src : Map AnyDeclRid RdDeclInfo)
    (dst : Map AnyDeclLid DeclInfo) (rid : DefId) (id : Nat) :
    Option (Map AnyDeclLid DeclInfo) := do
  let info ← src (.Fun rid)
  pure (mapInsert dst (.Fun id) (DeclInfo.new rid info))

/-- `add_global_info` (lines 61-69). -/
def add_global_info (src : Map AnyDeclRid RdDeclInfo)
    (dst : Map AnyDeclLid DeclInfo) (rid : DefId) (id : Nat) :
    Option (Map AnyDeclLid DeclInfo) := do
  let info ← src (.Global rid)
  pure (mapInsert dst (.Global id) (DeclInfo.new rid info))

/-- The mutable locals of the conversion loop of `rust_to_local_ids`
(lines 92-102): the info map, the three rust-to-local maps, the three
fresh-id counters and the accumulated groups. -/
structure ConvState where
  decls_info : Map AnyDeclLid DeclInfo
  type_rid_to_id : Map DefId Nat
  fun_rid_to_id : Map DefId Nat
  global_rid_to_id : Map DefId Nat
  type_counter : Nat
  fun_counter : Nat
  global_counter : Nat
  decls : List (DeclarationGroup Nat Nat Nat)

/-- The initial loop state (empty maps, counters at zero). -/
def initConvState : ConvState :=
  ⟨mapEmpty, mapEmpty, mapEmpty, mapEmpty, 0, 0, 0, []⟩

/-- Bumping the type counter and recording `rid -> id`
(`let id = type_counter.fresh_id(); type_rid_to_id.insert(*rid, id)`). -/
def type_insert (s : ConvState) (rid : DefId) (id : Nat) : ConvState :=
  { s with
    type_counter := s.type_counter + 1
    type_rid_to_id := mapInsert s.type_rid_to_id rid id }

/-- Bumping the function counter and recording `rid -> id`. -/
def fun_insert (s : ConvState) (rid : DefId) (id : Nat) : ConvState :=
  { s with
    fun_counter := s.fun_counter + 1
    fun_rid_to_id := mapInsert s.fun_rid_to_id rid id }

/-- Bumping the global counter and recording `rid -> id`. -/
def global_insert (s : ConvState) (rid : DefId) (id : Nat) : ConvState :=
  { s with
    global_counter := s.global_counter + 1
    global_rid_to_id := mapInsert s.global_rid_to_id rid id }

/-- Replacing the info map (the effect of `add_*_info` on the loop state). -/
def set_info (s : ConvState) (m : Map AnyDeclLid DeclInfo) : ConvState :=
  { s with decls_info := m }

/-- Appending one converted group (`decls.push(...)`). -/
def push_decl (s : ConvState) (g : DeclarationGroup Nat Nat Nat) : ConvState :=
  { s with decls := s.decls ++ [g] }

/-- The `for rid in rids` loop of the `Type(Rec(..))` arm (lines 115-121),
returning the accumulated fresh ids. -/
def assign_type_ids (src : Map AnyDeclRid RdDeclInfo) :
    ConvState → List DefId → Option (List Nat × ConvState)
  | s, [] => some ([], s)
  | s, rid :: rest => do
      let id := s.type_counter
      let s1 := type_insert s rid id
      let info ← add_type_info src s1.decls_info rid id
      let (ids, s3) ← assign_type_ids src (set_info s1 info) rest
      pure (id :: ids, s3)

/-- The `for rid in rids` loop of the `Fun(Rec(..))` arm (lines 131-137). -/
def assign_fun_ids (src : Map AnyDeclRid RdDeclInfo) :
    ConvState → List DefId → Option (List Nat × ConvState)
  | s, [] => some ([], s)
  | s, rid :: rest => do
      let id := s.fun_counter
      let s1 := fun_insert s rid id
      let info ← add_function_info src s1.decls_info rid id
      let (ids, s3) ← assign_fun_ids src (set_info s1 info) rest
      pure (id :: ids, s3)

/-- The `for rid in rids` loop of the `Global(Rec(..))` arm
(lines 147-153). -/
def assign_global_ids (src : Map AnyDeclRid RdDeclInfo) :
    ConvState → List DefId → Option (List Nat × ConvState)
  | s, [] => some ([], s)
  | s, rid :: rest => do
      let id := s.global_counter
      let s1 := global_insert s rid id
      let info ← add_global_info src s1.decls_info rid id
      let (ids, s3) ← assign_global_ids src (set_info s1 info) rest
      pure (id :: ids, s3)

/-- One iteration of the `for decl in &reordered.decls` loop
(lines 106-157). -/
def convert_decl (src : Map AnyDeclRid RdDeclInfo) (s : ConvState) :
    DeclarationGroup DefId DefId DefId → Option ConvState
  | .Type' (.NonRec rid) => do
      let id := s.type_counter
      let s1 := type_insert s rid id
      let info ← add_type_info src s1.decls_info rid id
      pure (push_decl (set_info s1 info) (.Type' (.NonRec id)))
  | .Type' (.Rec rids) => do
      let (ids, s1) ← assign_type_ids src s rids
      pure (push_decl s1 (.Type' (.Rec ids)))
  | .Fun (.NonRec rid) => do
      let id := s.fun_counter
      let s1 := fun_insert s rid id
      let info ← add_function_info src s1.decls_info rid id
      pure (push_decl (set_info s1 info) (.Fun (.NonRec id)))
  | .Fun (.Rec rids) => do
      let (ids, s1) ← assign_fun_ids src s rids
      pure (push_decl s1 (.Fun (.Rec ids)))
  | .Global (.NonRec rid) => do
      let id := s.global_counter
      let s1 := global_insert s rid id
      let info ← add_global_info src s1.decls_info rid id
      pure (push_decl (set_info s1 info) (.Global (.NonRec id)))
  | .Global (.Rec rids) => do
      let (ids, s1) ← assign_global_ids src s rids
      pure (push_decl s1 (.Global (.Rec ids)))

/-- The whole declaration loop. -/
def convert_decls (src : Map AnyDeclRid RdDeclInfo) :
    ConvState → List (DeclarationGroup DefId DefId DefId) → Option ConvState
  | s, [] => some s
  | s, d :: rest => do
      let s' ← convert_decl src s d
      convert_decls src s' rest

/-- `rust_to_local_ids` (lines 88-157): convert the rust identifiers of the
reordered declarations to fresh sequential local identifiers, one counter
per declaration kind. -/
def rust_to_local_ids (reordered : DeclarationsGroups) :
    Option OrderedDecls := do
  let s ← convert_decls reordered.decls_info initConvState reordered.decls
  pure ⟨s.decls, s.decls_info, s.type_rid_to_id, s.fun_rid_to_id,
    s.global_rid_to_id⟩

/-! ## Shapes of declaration groups, and id extraction -/

/-- The recursion shape of a group: non-recursive, or recursive with a
number of members. -/
inductive GroupShape where
  | NonRecS
  | RecS (len : Nat)
  deriving DecidableEq, Repr

/-- Declaration kinds. -/
inductive DeclKind where
  | TypeK
  | FunK
  | GlobalK
  deriving DecidableEq, Repr

/-- The recursion shape of a generic group. -/
def gdecl_shape {Id : Type} : GDeclarationGroup Id → GroupShape
  | .NonRec _ => .NonRecS
  | .Rec ids => .RecS ids.length

/-- Kind and recursion shape of a declaration group. -/
def decl_shape {A B C : Type} : DeclarationGroup A B C → DeclKind × GroupShape
  | .Type' g => (.TypeK, gdecl_shape g)
  | .Fun g => (.FunK, gdecl_shape g)
  | .Global g => (.GlobalK, gdecl_shape g)

/-- The type-declaration ids listed by one output group. -/
def group_type_ids : DeclarationGroup Nat Nat Nat → List Nat
  | .Type' (.NonRec id) => [id]
  | .Type' (.Rec ids) => ids
  | _ => []

/-- The function-declaration ids listed by one output group. -/
def group_fun_ids : DeclarationGroup Nat Nat Nat → List Nat
  | .Fun (.NonRec id) => [id]
  | .Fun (.Rec ids) => ids
  | _ => []

/-- The global-declaration ids listed by one output group. -/
def group_global_ids : DeclarationGroup Nat Nat Nat → List Nat
  | .Global (.NonRec id) => [id]
  | .Global (.Rec ids) => ids
  | _ => []

/-- All type ids of the output groups, in order of appearance. -/
def type_ids_of (ds : List (DeclarationGroup Nat Nat Nat)) : List Nat :=
  (ds.map group_type_ids).flatten

/-- All function ids of the output groups, in order of appearance. -/
def fun_ids_of (ds : List (DeclarationGroup Nat Nat Nat)) : List Nat :=
  (ds.map group_fun_ids).flatten

/-- All global ids of the output groups, in order of appearance. -/
def global_ids_of (ds : List (DeclarationGroup Nat Nat Nat)) : List Nat :=
  (ds.map group_global_ids).flatten

/-- The map sends distinct keys to distinct values. -/
def mapInjective {K V : Type} (m : Map K V) : Prop :=
  ∀ k1 k2 v, m k1 = some v → m k2 = some v → k1 = k2

/-- A rust-to-local map is well-formed at counter `c`: every assigned id is
below `c` and distinct keys hold distinct ids. -/
def mapOk (m : Map DefId Nat) (c : Nat) : Prop :=
  (∀ r i, m r = some i → i < c) ∧ mapInjective m

/-- Invariant of the conversion loop: the ids listed by the accumulated
groups are exactly `0, 1, ...` up to the kind's counter, in order, and the
three rust-to-local maps are well-formed. -/
def ConvInv (s : ConvState) : Prop :=
  type_ids_of s.decls = List.range s.type_counter ∧
  fun_ids_of s.decls = List.range s.fun_counter ∧
  global_ids_of s.decls = List.range s.global_counter ∧
  mapOk s.type_rid_to_id s.type_counter ∧
  mapOk s.fun_rid_to_id s.fun_counter ∧
  mapOk s.global_rid_to_id s.global_counter

/-! ## Concrete example trees and inputs -/

/-- `tmp := copy x1 + copy x2`, the temporary being the pair in variable 0. -/
def exAssign : Expression :=
  .Statement (.Assign ⟨0, []⟩ (.BinaryOp .Add (.Copy ⟨1, []⟩) (.Copy ⟨2, []⟩)))

/-- `assert(move (tmp.1) == false)`. -/
def exAssert : Expression :=
  .Statement (.Assert ⟨.Move ⟨0, [.Field (.Tuple 2) 1]⟩, false⟩)

/-- `dest := move (tmp.0)`, the destination being variable 3. -/
def exMove : Expression :=
  .Statement (.Assign ⟨3, []⟩ (.Use (.Move ⟨0, [.Field (.Tuple 2) 0]⟩)))

/-- A matched operation-then-check window followed by a `return`. -/
def exAddWindow : Expression :=
  .Sequence exAssign (.Sequence exAssert (.Sequence exMove
    (.Statement .Return)))

/-- The matched idiom as the final three elements of a chain, with no
statement following them. -/
def exAddWindowFinal : Expression :=
  .Sequence exAssign (.Sequence exAssert exMove)

/-- An `Add` assignment followed by two statements that do not match the
operation-then-check shape. -/
def exMismatchWindow : Expression :=
  .Sequence exAssign (.Sequence (.Statement .Return)
    (.Sequence (.Statement .Nop) (.Statement .Return)))

/-- A concrete input for the declaration re-indexing: one non-recursive
type with rust id 10, two mutually recursive functions with rust ids 20 and
21, one non-recursive global with rust id 30, all transparent. -/
def exGroups : DeclarationsGroups :=
  ⟨[.Type' (.NonRec 10), .Fun (.Rec [20, 21]), .Global (.NonRec 30)],
   fun _ => some ⟨true⟩⟩

/-- The output of `rust_to_local_ids` on `exGroups`. -/
def exOrdered : OrderedDecls :=
  ⟨[.Type' (.NonRec 0), .Fun (.Rec [0, 1]), .Global (.NonRec 0)],
   mapInsert (mapInsert (mapInsert (mapInsert mapEmpty
     (.Type' 0) ⟨10, true⟩) (.Fun 0) ⟨20, true⟩) (.Fun 1) ⟨21, true⟩)
     (.Global 0) ⟨30, true⟩,
   mapInsert mapEmpty 10 0,
   mapInsert (mapInsert mapEmpty 20 0) 21 1,
   mapInsert mapEmpty 30 0⟩

/-! ## Helper lemmas about the place-similarity check -/

/-- A list `q` equals `p ++ [e]` iff it is one element longer, agrees with `p`
on every index of `p`, and carries `e` at index `p.length` (all read through
`getD` with an arbitrary default, as the source's indexed loop does). -/
theorem getD_append_singleton_iff {α : Type} [DecidableEq α]
    (p q : List α) (e d : α) :
    (p.length + 1 = q.length ∧
      (∀ i, i < p.length → p.getD i d = q.getD i d) ∧
      e = q.getD p.length d) ↔ q = p ++ [e] := by
  induction p generalizing q with
  | nil =>
    cases q with
    | nil => simp
    | cons b q' =>
      cases q' with
      | nil =>
        simp [List.getD]
        exact comm
      | cons c q'' => simp
  | cons a p' ih =>
    cases q with
    | nil => simp
    | cons b q' =>
      constructor
      · rintro ⟨hlen, hpre, hlast⟩
        have hab : a = b := by
          have := hpre 0 (by simp)
          simpa [List.getD] using this
        have hq' : q' = p' ++ [e] := by
          refine (ih q').mp ⟨by simpa using hlen, ?_, ?_⟩
          · intro i hi
            have := hpre (i + 1) (by simpa using hi)
            simpa [List.getD] using this
          · simpa [List.getD] using hlast
        simp [hab, hq']
      · intro h
        injection h with h1 h2
        refine ⟨?_, ?_, ?_⟩
        · simp [h2]
        · intro i hi
          cases i with
          | zero => simp [List.getD, h1]
          | succ j =>
            have hj : j < p'.length := by
              simp only [List.length_cons] at hi
              omega
            have := ((ih q').mpr h2).2.1 j hj
            simpa [List.getD] using this
        · have := ((ih q').mpr h2).2.2
          simpa [List.getD] using this

/-- Characterization of the source's place-similarity check: it returns `true`
exactly when the full place is the short place with `pelem` appended. -/
theorem check_places_similar_iff
    (place : Place) (pelem : ProjectionElem) (full_place : Place) :
    check_places_similar_but_last_proj_elem place pelem full_place = true ↔
      place.var_id = full_place.var_id ∧
      full_place.projection = place.projection ++ [pelem] := by
  unfold check_places_similar_but_last_proj_elem
  by_cases h : place.var_id = full_place.var_id ∧
      place.projection.length + 1 = full_place.projection.length
  · rw [if_pos h]
    by_cases hall : (List.range place.projection.length).all (fun i =>
        place.projection.getD i ProjectionElem.Deref =
          full_place.projection.getD i ProjectionElem.Deref) = true
    · rw [if_pos hall]
      constructor
      · intro hlast
        refine ⟨h.1, ?_⟩
        refine (getD_append_singleton_iff place.projection full_place.projection
          pelem ProjectionElem.Deref).mp ⟨h.2, ?_, by simpa using hlast⟩
        intro i hi
        have := (List.all_eq_true.mp hall) i (List.mem_range.mpr hi)
        simpa using this
      · intro ⟨_, happ⟩
        have := (getD_append_singleton_iff place.projection full_place.projection
          pelem ProjectionElem.Deref).mpr happ
        simpa using this.2.2
    · rw [if_neg hall]
      simp only [Bool.false_eq_true, false_iff]
      intro ⟨_, happ⟩
      apply hall
      have := (getD_append_singleton_iff place.projection full_place.projection
        pelem ProjectionElem.Deref).mpr happ
      refine List.all_eq_true.mpr ?_
      intro i hi
      have hi' := List.mem_range.mp hi
      simpa using this.2.1 i hi'
  · rw [if_neg h]
    simp only [Bool.false_eq_true, false_iff]
    intro ⟨hvar, happ⟩
    exact h ⟨hvar, by simp [happ]⟩

/-- The check succeeds on a place extended with one projection element. -/
theorem check_places_append (place : Place) (pelem : ProjectionElem) :
    check_places_similar_but_last_proj_elem place pelem
      ⟨place.var_id, place.projection ++ [pelem]⟩ = true := by
  exact (check_places_similar_iff place pelem
    ⟨place.var_id, place.projection ++ [pelem]⟩).mpr ⟨rfl, rfl⟩

/-! ## Lemmas about the window checks -/

/-- A window of the exact operation-then-check shape passes
`check_if_binop_then_assert`. -/
theorem check_if_binop_then_assert_matched
    (op : BinOp) (x y : Operand) (t dest : Place)
    (hop : binop_requires_assert_after op = true) :
    check_if_binop_then_assert
      (.Statement (.Assign t (.BinaryOp op x y)))
      (.Statement (.Assert ⟨.Move ⟨t.var_id,
        t.projection ++ [.Field (.Tuple 2) 1]⟩, false⟩))
      (.Statement (.Assign dest (.Use (.Move ⟨t.var_id,
        t.projection ++ [.Field (.Tuple 2) 0]⟩)))) = some true := by
  simp [check_if_binop_then_assert, hop,
    check_if_simplifiable_binop_then_assert, rust_assert, check_places_append]

/-- A window of the exact check-then-operation shape passes
`check_if_assert_then_binop`. -/
theorem check_if_assert_then_binop_matched
    (op : BinOp) (dividend : Operand) (tp divisor dest : Place)
    (ty : ETy) (z : ScalarValue)
    (hop : binop_requires_assert_before op = true)
    (hz : z = .SInt 0 ∨ z = .UInt 0) :
    check_if_assert_then_binop
      (.Statement (.Assign tp (.BinaryOp .Eq (.Copy divisor)
        (.Constant ty (.ConstantValue (.Scalar z))))))
      (.Statement (.Assert ⟨.Move tp, false⟩))
      (.Statement (.Assign dest (.BinaryOp op dividend (.Move divisor)))) =
      some true := by
  rcases hz with h | h <;> subst h <;>
    simp [check_if_assert_then_binop, hop,
      check_if_simplifiable_assert_then_binop, rust_assert,
      ScalarValue.is_int, ScalarValue.as_int, ScalarValue.as_uint]

/-! ## Claim theorems: the two idiom collapses -/

/-- C1: a window `t := BinaryOp(op, a, b); assert(move t.1 == false);
dest := move t.0;` with `op` in the overflow family, followed by a
continuation, is replaced by the single statement `dest := BinaryOp(op, a,
b)` — no assert remains — and the simplifier continues on the rest of the
chain. -/
theorem simplify_collapses_binop_then_assert
    (op : BinOp) (x y : Operand) (t dest : Place) (exp4 : Expression)
    (hop : op = .Add ∨ op = .Sub ∨ op = .Mul ∨ op = .Shl ∨ op = .Shr) :
    simplify_exp (.Sequence
      (.Statement (.Assign t (.BinaryOp op x y)))
      (.Sequence
        (.Statement (.Assert ⟨.Move ⟨t.var_id,
          t.projection ++ [.Field (.Tuple 2) 1]⟩, false⟩))
        (.Sequence
          (.Statement (.Assign dest (.Use (.Move ⟨t.var_id,
            t.projection ++ [.Field (.Tuple 2) 0]⟩))))
          exp4))) =
    (simplify_exp exp4).map
      (fun rest =>
        .Sequence (.Statement (.Assign dest (.BinaryOp op x y))) rest) := by
  have hop' : binop_requires_assert_after op = true := by
    rcases hop with h | h | h | h | h <;> subst h <;> rfl
  rw [simplify_exp]
  rw [check_if_binop_then_assert_matched op x y t dest hop']
  cases h4 : simplify_exp exp4 <;>
    simp [simplify_binop_then_assert, h4]

/-- Witness for C1 at a concrete window. -/
theorem simplify_collapses_binop_then_assert_witness :
    simplify_exp exAddWindow =
    (simplify_exp (.Statement .Return)).map
      (fun rest =>
        .Sequence (.Statement (.Assign ⟨3, []⟩
          (.BinaryOp .Add (.Copy ⟨1, []⟩) (.Copy ⟨2, []⟩)))) rest) :=
  simplify_collapses_binop_then_assert .Add (.Copy ⟨1, []⟩) (.Copy ⟨2, []⟩)
    ⟨0, []⟩ ⟨3, []⟩ (.Statement .Return) (Or.inl rfl)

/-- C2: a window `t := (copy divisor) == 0; assert(move t == false);
dest := BinaryOp(op, dividend, move divisor)` with `op` a division or
remainder drops the two guard statements and keeps the third unchanged. -/
theorem simplify_collapses_assert_then_binop
    (op : BinOp) (dividend : Operand) (tp divisor dest : Place)
    (ty : ETy) (z : ScalarValue) (exp4 : Expression)
    (hop : op = .Div ∨ op = .Rem)
    (hz : z = .SInt 0 ∨ z = .UInt 0) :
    simplify_exp (.Sequence
      (.Statement (.Assign tp (.BinaryOp .Eq (.Copy divisor)
        (.Constant ty (.ConstantValue (.Scalar z))))))
      (.Sequence
        (.Statement (.Assert ⟨.Move tp, false⟩))
        (.Sequence
          (.Statement (.Assign dest (.BinaryOp op dividend (.Move divisor))))
          exp4))) =
    (simplify_exp exp4).map
      (fun rest =>
        .Sequence
          (.Statement (.Assign dest (.BinaryOp op dividend (.Move divisor))))
          rest) := by
  have hop' : binop_requires_assert_before op = true := by
    rcases hop with h | h <;> subst h <;> rfl
  rw [simplify_exp]
  rw [check_if_binop_then_assert]
  rw [check_if_assert_then_binop_matched op dividend tp divisor dest ty z
    hop' hz]
  cases h4 : simplify_exp exp4 <;>
    simp [simplify_assert_then_binop, binop_requires_assert_after, h4]

/-- Witness for C2 at a concrete window (`b == 0; assert; a / b`). -/
theorem simplify_collapses_assert_then_binop_witness :
    simplify_exp (.Sequence
      (.Statement (.Assign ⟨4, []⟩ (.BinaryOp .Eq (.Copy ⟨2, []⟩)
        (.Constant 0 (.ConstantValue (.Scalar (.UInt 0)))))))
      (.Sequence
        (.Statement (.Assert ⟨.Move ⟨4, []⟩, false⟩))
        (.Sequence
          (.Statement (.Assign ⟨5, []⟩
            (.BinaryOp .Div (.Move ⟨1, []⟩) (.Move ⟨2, []⟩))))
          (.Statement .Return)))) =
    (simplify_exp (.Statement .Return)).map
      (fun rest =>
        .Sequence
          (.Statement (.Assign ⟨5, []⟩
            (.BinaryOp .Div (.Move ⟨1, []⟩) (.Move ⟨2, []⟩))))
          rest) :=
  simplify_collapses_assert_then_binop .Div (.Move ⟨1, []⟩) ⟨4, []⟩ ⟨2, []⟩
    ⟨5, []⟩ 0 (.UInt 0) (.Statement .Return) (Or.inl rfl) (Or.inr rfl)

/-! ## Claim theorems: mismatched windows, trailing windows, surviving
fallible binops -/

/-- C4 counterexample: a window whose first statement assigns an `Add`
binop but whose second statement is a `return` (not the expected assert) is
not returned unchanged: the simplifier aborts (panics through
`assert!`/`unreachable!`), modelled by `none`. -/
theorem mismatched_binop_window_aborts_example :
    simplify_exp exMismatchWindow = none := by
  rw [exMismatchWindow, exAssign, simplify_exp]
  simp [check_if_binop_then_assert, binop_requires_assert_after,
    check_if_simplifiable_binop_then_assert]

/-- C4 as amended: whenever the first statement of a three-statement window
assigns a binop of the overflow family but the window fails the
operation-then-check shape check, the simplifier aborts (returns `none`)
instead of returning the three statements unchanged. -/
theorem mismatched_binop_window_aborts
    (exp2 exp3 exp4 : Expression) (p : Place) (op : BinOp) (x y : Operand)
    (hop : binop_requires_assert_after op = true)
    (hmis : check_if_simplifiable_binop_then_assert
      (.Statement (.Assign p (.BinaryOp op x y))) exp2 exp3 = none) :
    simplify_exp (.Sequence (.Statement (.Assign p (.BinaryOp op x y)))
      (.Sequence exp2 (.Sequence exp3 exp4))) = none := by
  rw [simplify_exp]
  simp [check_if_binop_then_assert, hop, hmis]

/-- Witness for the amended C4 at the concrete mismatched window. -/
theorem mismatched_binop_window_aborts_witness :
    simplify_exp (.Sequence (.Statement (.Assign ⟨0, []⟩
      (.BinaryOp .Add (.Copy ⟨1, []⟩) (.Copy ⟨2, []⟩))))
      (.Sequence (.Statement .Return)
        (.Sequence (.Statement .Nop) (.Statement .Return)))) = none :=
  mismatched_binop_window_aborts (.Statement .Return) (.Statement .Nop)
    (.Statement .Return) ⟨0, []⟩ .Add (.Copy ⟨1, []⟩) (.Copy ⟨2, []⟩)
    rfl rfl

/-- C5 counterexample: the matched operation-then-check idiom placed as the
final three elements of a `Sequence` chain, with no statement following, is
not collapsed: the simplifier aborts on the surviving fallible binop
instead. -/
theorem trailing_idiom_not_collapsed_example :
    simplify_exp exAddWindowFinal = none := by
  rw [exAddWindowFinal, exAssign, exAssert, exMove, simplify_exp]
  simp [simplify_exp, rust_assert, statement_is_faillible_binop,
    binop_can_fail, binop_requires_assert_after]

/-- C5 as amended: recognizing either idiom requires a fourth element after
the three statements; when a matched window ends the chain, the simplifier
does not collapse it and instead hits the fallible-binop assertion. -/
theorem trailing_window_needs_continuation :
    (∀ (op : BinOp) (x y : Operand) (t dest : Place),
      binop_requires_assert_after op = true →
      simplify_exp (.Sequence
        (.Statement (.Assign t (.BinaryOp op x y)))
        (.Sequence
          (.Statement (.Assert ⟨.Move ⟨t.var_id,
            t.projection ++ [.Field (.Tuple 2) 1]⟩, false⟩))
          (.Statement (.Assign dest (.Use (.Move ⟨t.var_id,
            t.projection ++ [.Field (.Tuple 2) 0]⟩)))))) = none) ∧
    (∀ (op : BinOp) (dividend : Operand) (tp divisor dest : Place)
      (ty : ETy) (z : ScalarValue),
      binop_requires_assert_before op = true →
      simplify_exp (.Sequence
        (.Statement (.Assign tp (.BinaryOp .Eq (.Copy divisor)
          (.Constant ty (.ConstantValue (.Scalar z))))))
        (.Sequence
          (.Statement (.Assert ⟨.Move tp, false⟩))
          (.Statement (.Assign dest
            (.BinaryOp op dividend (.Move divisor)))))) = none) := by
  constructor
  · intro op x y t dest hop
    have hcf : binop_can_fail op = true := by
      simp [binop_can_fail, hop]
    rw [simplify_exp]
    simp [simplify_exp, rust_assert, statement_is_faillible_binop, hcf]
  · intro op dividend tp divisor dest ty z hop
    have hcf : binop_can_fail op = true := by
      simp [binop_can_fail, hop]
    rw [simplify_exp]
    simp [simplify_exp, rust_assert, statement_is_faillible_binop, hcf]

/-- Witness for the amended C5, both families, at concrete windows. -/
theorem trailing_window_needs_continuation_witness :
    simplify_exp (.Sequence
      (.Statement (.Assign ⟨0, []⟩
        (.BinaryOp .Add (.Copy ⟨1, []⟩) (.Copy ⟨2, []⟩))))
      (.Sequence
        (.Statement (.Assert ⟨.Move ⟨0, [.Field (.Tuple 2) 1]⟩, false⟩))
        (.Statement (.Assign ⟨3, []⟩
          (.Use (.Move ⟨0, [.Field (.Tuple 2) 0]⟩)))))) = none ∧
    simplify_exp (.Sequence
      (.Statement (.Assign ⟨4, []⟩ (.BinaryOp .Eq (.Copy ⟨2, []⟩)
        (.Constant 0 (.ConstantValue (.Scalar (.UInt 0)))))))
      (.Sequence
        (.Statement (.Assert ⟨.Move ⟨4, []⟩, false⟩))
        (.Statement (.Assign ⟨5, []⟩
          (.BinaryOp .Div (.Move ⟨1, []⟩) (.Move ⟨2, []⟩)))))) = none :=
  ⟨trailing_window_needs_continuation.1 .Add (.Copy ⟨1, []⟩) (.Copy ⟨2, []⟩)
    ⟨0, []⟩ ⟨3, []⟩ rfl,
   trailing_window_needs_continuation.2 .Div (.Move ⟨1, []⟩) ⟨4, []⟩ ⟨2, []⟩
    ⟨5, []⟩ 0 (.UInt 0) rfl⟩

/-- C6: an assignment of a fallible binop (the seven-op union) that reaches
the simplifier's statement case — i.e. survives uncollapsed — fails the
internal assertion (is surfaced loudly) instead of being returned
unchanged. -/
theorem surviving_faillible_binop_asserts
    (p : Place) (op : BinOp) (x y : Operand)
    (hop : op = .Add ∨ op = .Sub ∨ op = .Mul ∨ op = .Shl ∨ op = .Shr ∨
      op = .Div ∨ op = .Rem) :
    simplify_exp (.Statement (.Assign p (.BinaryOp op x y))) = none := by
  have hfail : statement_is_faillible_binop (.Assign p (.BinaryOp op x y)) =
      true := by
    rcases hop with h | h | h | h | h | h | h <;> subst h <;> rfl
  rw [simplify_exp]
  simp [rust_assert, hfail]

/-- Witness for C6 at a concrete fallible assignment. -/
theorem surviving_faillible_binop_asserts_witness :
    simplify_exp (.Statement (.Assign ⟨0, []⟩
      (.BinaryOp .Add (.Copy ⟨1, []⟩) (.Copy ⟨2, []⟩)))) = none :=
  surviving_faillible_binop_asserts ⟨0, []⟩ .Add (.Copy ⟨1, []⟩)
    (.Copy ⟨2, []⟩) (Or.inl rfl)

/-! ## Claim theorems: fallibility classification and place check -/

/-- C8: `binop_requires_assert_after` is true exactly on the overflow
family, `binop_requires_assert_before` exactly on division/remainder, and
`binop_can_fail` exactly on their union, false on all comparison/bitwise
ops. -/
theorem binop_classification :
    (∀ op : BinOp, binop_requires_assert_after op = true ↔
      op = .Add ∨ op = .Sub ∨ op = .Mul ∨ op = .Shl ∨ op = .Shr) ∧
    (∀ op : BinOp, binop_requires_assert_before op = true ↔
      op = .Div ∨ op = .Rem) ∧
    (∀ op : BinOp, binop_can_fail op = true ↔
      op = .Add ∨ op = .Sub ∨ op = .Mul ∨ op = .Shl ∨ op = .Shr ∨
      op = .Div ∨ op = .Rem) ∧
    (binop_can_fail .BitXor = false ∧ binop_can_fail .BitAnd = false ∧
      binop_can_fail .BitOr = false ∧ binop_can_fail .Eq = false ∧
      binop_can_fail .Lt = false ∧ binop_can_fail .Le = false ∧
      binop_can_fail .Ne = false ∧ binop_can_fail .Ge = false ∧
      binop_can_fail .Gt = false) := by
  refine ⟨?_, ?_, ?_, ?_⟩
  · intro op
    cases op <;> simp [binop_requires_assert_after]
  · intro op
    cases op <;> simp [binop_requires_assert_before]
  · intro op
    cases op <;>
      simp [binop_can_fail, binop_requires_assert_after,
        binop_requires_assert_before]
  · refine ⟨rfl, rfl, rfl, rfl, rfl, rfl, rfl, rfl, rfl⟩

/-- C9: the place-similarity check returns true exactly when the full place
has the same base variable and its projection is the short place's
projection with the single element appended; it returns false in every
other configuration (length difference other than one, differing prefix
element, or different last element). -/
theorem check_places_similar_characterization
    (place : Place) (pelem : ProjectionElem) (full_place : Place) :
    check_places_similar_but_last_proj_elem place pelem full_place = true ↔
      full_place.var_id = place.var_id ∧
      full_place.projection = place.projection ++ [pelem] := by
  rw [check_places_similar_iff]
  constructor
  · rintro ⟨h1, h2⟩
    exact ⟨h1.symm, h2⟩
  · rintro ⟨h1, h2⟩
    exact ⟨h1.symm, h2⟩

/-! ## Lemmas: the simplifier is the identity on trees without fallible
binops -/

/-- On a first expression that assigns no fallible binop, the
operation-then-check detection returns `some false` (no panic, no match). -/
theorem check_if_binop_then_assert_nonfaillible
    (exp1 exp2 exp3 : Expression)
    (h : exp_no_faillible_binop exp1 = true) :
    check_if_binop_then_assert exp1 exp2 exp3 = some false := by
  cases exp1 with
  | Statement st =>
    cases st with
    | Assign p rv =>
      cases rv with
      | BinaryOp binop x y =>
        have hb : binop_can_fail binop = false := by
          simpa [exp_no_faillible_binop, statement_is_faillible_binop] using h
        have ha : binop_requires_assert_after binop = false := by
          cases hcase : binop_requires_assert_after binop
          · rfl
          · rw [binop_can_fail, hcase] at hb
            simp at hb
        simp [check_if_binop_then_assert, ha]
      | Use op => simp [check_if_binop_then_assert]
      | Ref q k => simp [check_if_binop_then_assert]
      | UnaryOp o x => simp [check_if_binop_then_assert]
      | Discriminant q => simp [check_if_binop_then_assert]
      | Aggregate k ops => simp [check_if_binop_then_assert]
    | FakeRead p => simp [check_if_binop_then_assert]
    | SetDiscriminant p v => simp [check_if_binop_then_assert]
    | Drop p => simp [check_if_binop_then_assert]
    | Assert a => simp [check_if_binop_then_assert]
    | Call c => simp [check_if_binop_then_assert]
    | Panic => simp [check_if_binop_then_assert]
    | Return => simp [check_if_binop_then_assert]
    | Break n => simp [check_if_binop_then_assert]
    | Continue n => simp [check_if_binop_then_assert]
    | Nop => simp [check_if_binop_then_assert]
  | Switch op targets => simp [check_if_binop_then_assert]
  | Loop b => simp [check_if_binop_then_assert]
  | Sequence a b => simp [check_if_binop_then_assert]

/-- On a third expression that assigns no fallible binop, the
check-then-operation detection returns `some false`. -/
theorem check_if_assert_then_binop_nonfaillible
    (exp1 exp2 exp3 : Expression)
    (h : exp_no_faillible_binop exp3 = true) :
    check_if_assert_then_binop exp1 exp2 exp3 = some false := by
  cases exp3 with
  | Statement st =>
    cases st with
    | Assign p rv =>
      cases rv with
      | BinaryOp binop x y =>
        have hb : binop_can_fail binop = false := by
          simpa [exp_no_faillible_binop, statement_is_faillible_binop] using h
        have ha : binop_requires_assert_before binop = false := by
          cases hcase : binop_requires_assert_before binop
          · rfl
          · rw [binop_can_fail, hcase] at hb
            simp at hb
        simp [check_if_assert_then_binop, ha]
      | Use op => simp [check_if_assert_then_binop]
      | Ref q k => simp [check_if_assert_then_binop]
      | UnaryOp o x => simp [check_if_assert_then_binop]
      | Discriminant q => simp [check_if_assert_then_binop]
      | Aggregate k ops => simp [check_if_assert_then_binop]
    | FakeRead p => simp [check_if_assert_then_binop]
    | SetDiscriminant p v => simp [check_if_assert_then_binop]
    | Drop p => simp [check_if_assert_then_binop]
    | Assert a => simp [check_if_assert_then_binop]
    | Call c => simp [check_if_assert_then_binop]
    | Panic => simp [check_if_assert_then_binop]
    | Return => simp [check_if_assert_then_binop]
    | Break n => simp [check_if_assert_then_binop]
    | Continue n => simp [check_if_assert_then_binop]
    | Nop => simp [check_if_assert_then_binop]
  | Switch op targets => simp [check_if_assert_then_binop]
  | Loop b => simp [check_if_assert_then_binop]
  | Sequence a b => simp [check_if_assert_then_binop]

/-- On a tree containing no fallible-binop assignment, the simplifier
terminates normally and returns the tree unchanged. -/
theorem simplify_exp_nonfaillible_id :
    ∀ e : Expression,
      exp_no_faillible_binop e = true → simplify_exp e = some e := by
  refine simplify_exp.induct
    (fun e => exp_no_faillible_binop e = true → simplify_exp e = some e)
    (fun l => targets_no_faillible_binop l = true →
      simplify_switch_targets l = some l)
    ?_ ?_ ?_ ?_ ?_ ?_ ?_ ?_ ?_ ?_ ?_ ?_ ?_
  · intro st h
    simp only [exp_no_faillible_binop, Bool.not_eq_true'] at h
    rw [simplify_exp]
    simp [rust_assert, h]
  · intro op exp1 exp2 ih1 ih2 h
    simp only [exp_no_faillible_binop, Bool.and_eq_true] at h
    rw [simplify_exp]
    simp [ih1 h.1, ih2 h.2]
  · intro op int_ty targets otherwise ihts ihoth h
    simp only [exp_no_faillible_binop, Bool.and_eq_true] at h
    rw [simplify_exp]
    simp [ihts h.1, ihoth h.2]
  · intro loop_body ih h
    simp only [exp_no_faillible_binop] at h
    rw [simplify_exp]
    simp [ih h]
  · intro exp1 exp2 exp3 exp4 ih4 ih1 ihrest h
    simp only [exp_no_faillible_binop, Bool.and_eq_true] at h
    obtain ⟨h1, h2, h3, h4⟩ := h
    rw [simplify_exp]
    rw [check_if_binop_then_assert_nonfaillible exp1 exp2 exp3 h1]
    rw [check_if_assert_then_binop_nonfaillible exp1 exp2 exp3 h3]
    have hrest : exp_no_faillible_binop
        (.Sequence exp2 (.Sequence exp3 exp4)) = true := by
      simp [exp_no_faillible_binop, h2, h3, h4]
    simp [ih1 h1, ihrest hrest]
  · intro exp1 exp2 st ih1 ihrest h
    simp only [exp_no_faillible_binop, Bool.and_eq_true] at h
    obtain ⟨h1, h2, h3⟩ := h
    have hrest : exp_no_faillible_binop
        (.Sequence exp2 (.Statement st)) = true := by
      simp [exp_no_faillible_binop, h2, h3]
    rw [simplify_exp]
    simp [ih1 h1, ihrest hrest]
  · intro exp1 exp2 op targets ih1 ihrest h
    simp only [exp_no_faillible_binop, Bool.and_eq_true] at h
    obtain ⟨h1, h2, h3⟩ := h
    have hrest : exp_no_faillible_binop
        (.Sequence exp2 (.Switch op targets)) = true := by
      simp only [exp_no_faillible_binop, Bool.and_eq_true]
      exact ⟨h2, h3⟩
    rw [simplify_exp]
    simp [ih1 h1, ihrest hrest]
  · intro exp1 exp2 body ih1 ihrest h
    simp only [exp_no_faillible_binop, Bool.and_eq_true] at h
    obtain ⟨h1, h2, h3⟩ := h
    have hrest : exp_no_faillible_binop
        (.Sequence exp2 (.Loop body)) = true := by
      simp only [exp_no_faillible_binop, Bool.and_eq_true]
      exact ⟨h2, h3⟩
    rw [simplify_exp]
    simp [ih1 h1, ihrest hrest]
  · intro exp1 st ih1 ih2 h
    simp only [exp_no_faillible_binop, Bool.and_eq_true] at h
    rw [simplify_exp]
    simp [ih1 h.1, ih2 (by simp only [exp_no_faillible_binop]; exact h.2)]
  · intro exp1 op targets ih1 ih2 h
    simp only [exp_no_faillible_binop, Bool.and_eq_true] at h
    rw [simplify_exp]
    simp [ih1 h.1, ih2 h.2]
  · intro exp1 body ih1 ih2 h
    simp only [exp_no_faillible_binop, Bool.and_eq_true] at h
    have h2 : exp_no_faillible_binop (.Loop body) = true := by
      simp only [exp_no_faillible_binop]
      exact h.2
    rw [simplify_exp]
    simp [ih1 h.1, ih2 h2]
  · intro _
    rw [simplify_switch_targets]
    rfl
  · intro v e rest ihe ihrest h
    simp only [targets_no_faillible_binop, Bool.and_eq_true] at h
    rw [simplify_switch_targets]
    simp [ihe h.1, ihrest h.2]

/-! ## Claim theorems: idempotence -/

/-- C3 counterexample: on a tree whose first pass collapses an `Add` guard
idiom, the second pass panics on the resulting lone fallible-binop
assignment, so running the simplifier twice differs from running it once. -/
theorem simplify_not_idempotent_example :
    (simplify_exp exAddWindow).bind simplify_exp ≠ simplify_exp exAddWindow := by
  have h1 : simplify_exp exAddWindow = some (.Sequence
      (.Statement (.Assign ⟨3, []⟩
        (.BinaryOp .Add (.Copy ⟨1, []⟩) (.Copy ⟨2, []⟩))))
      (.Statement .Return)) := by
    rw [exAddWindow, exAssign, exAssert, exMove, simplify_exp]
    simp [simplify_exp, check_if_binop_then_assert,
      check_if_simplifiable_binop_then_assert, binop_requires_assert_after,
      rust_assert, check_places_similar_but_last_proj_elem,
      simplify_binop_then_assert, statement_is_faillible_binop]
  have h2 : simplify_exp (Expression.Sequence
      (.Statement (.Assign ⟨3, []⟩
        (.BinaryOp .Add (.Copy ⟨1, []⟩) (.Copy ⟨2, []⟩))))
      (.Statement .Return)) = none := by
    rw [simplify_exp]
    simp [simplify_exp, rust_assert, statement_is_faillible_binop,
      binop_can_fail, binop_requires_assert_after]
  rw [h1]
  simp [h2]

/-- C3 as amended: running the simplifier twice yields the same result as
running it once on every tree that contains no fallible-binop assignment —
on such trees one run already returns the tree unchanged. When the first
pass collapses a guard idiom, the second run instead fails the internal
fallible-binop assertion (see the counterexample). -/
theorem simplify_twice_eq_once_on_nonfaillible
    (T : Expression) (h : exp_no_faillible_binop T = true) :
    simplify_exp T = some T ∧
    (simplify_exp T).bind simplify_exp = simplify_exp T := by
  have hid := simplify_exp_nonfaillible_id T h
  refine ⟨hid, ?_⟩
  rw [hid]
  simpa using hid

/-- Witness for the amended C3 on a concrete guard-free tree. -/
theorem simplify_twice_eq_once_on_nonfaillible_witness :
    simplify_exp (.Sequence (.Statement .Nop) (.Statement .Return)) =
      some (.Sequence (.Statement .Nop) (.Statement .Return)) ∧
    (simplify_exp (.Sequence (.Statement .Nop) (.Statement .Return))).bind
        simplify_exp =
      simplify_exp (.Sequence (.Statement .Nop) (.Statement .Return)) :=
  simplify_twice_eq_once_on_nonfaillible
    (.Sequence (.Statement .Nop) (.Statement .Return)) (by rfl)

/-! ## Lemmas: preservation of the sequence canonical form -/

/-- A successful collapse of an operation-then-check window is a single
assignment statement. -/
theorem simplify_binop_then_assert_shape
    (exp1 exp2 exp3 x : Expression)
    (h : simplify_binop_then_assert exp1 exp2 exp3 = some x) :
    ∃ mp rv, x = .Statement (.Assign mp rv) := by
  unfold simplify_binop_then_assert at h
  split at h
  · exact ⟨_, _, (Option.some.inj h).symm⟩
  · cases h

/-- Splitting the canonicity of a `Sequence` node. -/
theorem canon_seq_iff (a b : Expression) :
    exp_canonical (.Sequence a b) = true ↔
      (!a.isSequence) = true ∧ exp_canonical a = true ∧
      exp_canonical b = true := by
  simp [exp_canonical, Bool.and_eq_true, and_assoc]

/-- Canonicity of a statement leaf. -/
theorem canon_statement (st : Statement) :
    exp_canonical (.Statement st) = true := by
  simp [exp_canonical]

/-- Joint canonical-form preservation: a successful run preserves
canonicity and the head constructor (in particular `Sequence`-ness). -/
theorem simplify_exp_canonical_aux :
    ∀ e : Expression, ∀ e', simplify_exp e = some e' →
      (exp_canonical e = true → exp_canonical e' = true) ∧
      e'.isSequence = e.isSequence := by
  refine simplify_exp.induct
    (fun e => ∀ e', simplify_exp e = some e' →
      (exp_canonical e = true → exp_canonical e' = true) ∧
      e'.isSequence = e.isSequence)
    (fun l => ∀ l', simplify_switch_targets l = some l' →
      targets_canonical l = true → targets_canonical l' = true)
    ?_ ?_ ?_ ?_ ?_ ?_ ?_ ?_ ?_ ?_ ?_ ?_ ?_
  · intro st e' h
    rw [simplify_exp] at h
    cases hf : statement_is_faillible_binop st <;> rw [hf] at h <;>
      simp [rust_assert] at h
    subst h
    exact ⟨fun hc => hc, rfl⟩
  · intro op e1 e2 ih1 ih2 e' h
    rw [simplify_exp] at h
    rcases h1 : simplify_exp e1 with _ | a <;> rw [h1] at h <;> simp at h
    rcases h2 : simplify_exp e2 with _ | b <;> rw [h2] at h <;> simp at h
    subst h
    refine ⟨fun hc => ?_, rfl⟩
    simp only [exp_canonical, Bool.and_eq_true] at hc ⊢
    exact ⟨(ih1 a h1).1 hc.1, (ih2 b h2).1 hc.2⟩
  · intro op int_ty targets otherwise ihts ihoth e' h
    rw [simplify_exp] at h
    rcases h1 : simplify_switch_targets targets with _ | ts' <;> rw [h1] at h <;>
      simp at h
    rcases h2 : simplify_exp otherwise with _ | oth' <;> rw [h2] at h <;>
      simp at h
    subst h
    refine ⟨fun hc => ?_, rfl⟩
    simp only [exp_canonical, Bool.and_eq_true] at hc ⊢
    exact ⟨ihts ts' h1 hc.1, (ihoth oth' h2).1 hc.2⟩
  · intro loop_body ih e' h
    rw [simplify_exp] at h
    rcases h1 : simplify_exp loop_body with _ | b <;> rw [h1] at h <;> simp at h
    subst h
    refine ⟨fun hc => ?_, rfl⟩
    simp only [exp_canonical] at hc ⊢
    exact (ih b h1).1 hc
  · intro exp1 exp2 exp3 exp4 ih4 ih1 ihrest e' h
    rw [simplify_exp] at h
    rcases hc1 : check_if_binop_then_assert exp1 exp2 exp3 with _ | b1 <;>
      rw [hc1] at h <;> simp at h
    cases b1 with
    | true =>
      simp only [if_true] at h
      rcases hm : simplify_binop_then_assert exp1 exp2 exp3 with _ | st' <;>
        rw [hm] at h <;> simp at h
      rcases h4 : simplify_exp exp4 with _ | e4' <;> rw [h4] at h <;> simp at h
      subst h
      refine ⟨fun hc => ?_, rfl⟩
      simp only [canon_seq_iff] at hc
      obtain ⟨u1, c1, u2, c2, u3, c3, c4⟩ := hc
      obtain ⟨mp, rv, hst⟩ := simplify_binop_then_assert_shape _ _ _ _ hm
      subst hst
      rw [canon_seq_iff]
      exact ⟨rfl, canon_statement _, (ih4 e4' h4).1 c4⟩
    | false =>
      simp only [Bool.false_eq_true, if_false] at h
      rcases hc2 : check_if_assert_then_binop exp1 exp2 exp3 with _ | b2 <;>
        rw [hc2] at h <;> simp at h
      cases b2 with
      | true =>
        simp only [if_true, simplify_assert_then_binop] at h
        rcases h4 : simplify_exp exp4 with _ | e4' <;> rw [h4] at h <;>
          simp at h
        subst h
        refine ⟨fun hc => ?_, rfl⟩
        simp only [canon_seq_iff] at hc
        obtain ⟨u1, c1, u2, c2, u3, c3, c4⟩ := hc
        rw [canon_seq_iff]
        exact ⟨u3, c3, (ih4 e4' h4).1 c4⟩
      | false =>
        simp only [Bool.false_eq_true, if_false] at h
        rcases h1 : simplify_exp exp1 with _ | e1' <;> rw [h1] at h <;>
          simp at h
        rcases hr : simplify_exp (.Sequence exp2 (.Sequence exp3 exp4)) with
          _ | rest' <;> rw [hr] at h <;> simp at h
        subst h
        refine ⟨fun hc => ?_, rfl⟩
        simp only [canon_seq_iff] at hc
        obtain ⟨u1, c1, u2, c2, u3, c3, c4⟩ := hc
        have h1' := ih1 e1' h1
        have hcrest : exp_canonical
            (.Sequence exp2 (.Sequence exp3 exp4)) = true := by
          simp only [canon_seq_iff]
          exact ⟨u2, c2, u3, c3, c4⟩
        rw [canon_seq_iff]
        refine ⟨?_, h1'.1 c1, (ihrest rest' hr).1 hcrest⟩
        rw [h1'.2]
        exact u1
  · intro exp1 exp2 st ih1 ihrest e' h
    rw [simplify_exp] at h
    rcases h1 : simplify_exp exp1 with _ | e1' <;> rw [h1] at h <;> simp at h
    rcases hr : simplify_exp (.Sequence exp2 (.Statement st)) with _ | rest' <;>
      rw [hr] at h <;> simp at h
    subst h
    refine ⟨fun hc => ?_, rfl⟩
    simp only [canon_seq_iff] at hc
    obtain ⟨u1, c1, u2, c2, c3⟩ := hc
    have h1' := ih1 e1' h1
    have hcrest : exp_canonical (.Sequence exp2 (.Statement st)) = true := by
      simp only [canon_seq_iff]
      exact ⟨u2, c2, c3⟩
    rw [canon_seq_iff]
    refine ⟨?_, h1'.1 c1, (ihrest rest' hr).1 hcrest⟩
    rw [h1'.2]
    exact u1
  · intro exp1 exp2 op targets ih1 ihrest e' h
    rw [simplify_exp] at h
    rcases h1 : simplify_exp exp1 with _ | e1' <;> rw [h1] at h <;> simp at h
    rcases hr : simplify_exp (.Sequence exp2 (.Switch op targets)) with
      _ | rest' <;> rw [hr] at h <;> simp at h
    subst h
    refine ⟨fun hc => ?_, rfl⟩
    simp only [canon_seq_iff] at hc
    obtain ⟨u1, c1, u2, c2, c3⟩ := hc
    have h1' := ih1 e1' h1
    have hcrest : exp_canonical (.Sequence exp2 (.Switch op targets)) = true := by
      simp only [canon_seq_iff]
      exact ⟨u2, c2, c3⟩
    rw [canon_seq_iff]
    refine ⟨?_, h1'.1 c1, (ihrest rest' hr).1 hcrest⟩
    rw [h1'.2]
    exact u1
  · intro exp1 exp2 body ih1 ihrest e' h
    rw [simplify_exp] at h
    rcases h1 : simplify_exp exp1 with _ | e1' <;> rw [h1] at h <;> simp at h
    rcases hr : simplify_exp (.Sequence exp2 (.Loop body)) with _ | rest' <;>
      rw [hr] at h <;> simp at h
    subst h
    refine ⟨fun hc => ?_, rfl⟩
    simp only [canon_seq_iff] at hc
    obtain ⟨u1, c1, u2, c2, c3⟩ := hc
    have h1' := ih1 e1' h1
    have hcrest : exp_canonical (.Sequence exp2 (.Loop body)) = true := by
      simp only [canon_seq_iff]
      exact ⟨u2, c2, c3⟩
    rw [canon_seq_iff]
    refine ⟨?_, h1'.1 c1, (ihrest rest' hr).1 hcrest⟩
    rw [h1'.2]
    exact u1
  · intro exp1 st ih1 ih2 e' h
    rw [simplify_exp] at h
    rcases h1 : simplify_exp exp1 with _ | e1' <;> rw [h1] at h <;> simp at h
    rcases h2 : simplify_exp (.Statement st) with _ | x' <;> rw [h2] at h <;>
      simp at h
    subst h
    refine ⟨fun hc => ?_, rfl⟩
    simp only [canon_seq_iff] at hc
    obtain ⟨u1, c1, c2⟩ := hc
    have h1' := ih1 e1' h1
    rw [canon_seq_iff]
    refine ⟨?_, h1'.1 c1, (ih2 x' h2).1 c2⟩
    rw [h1'.2]
    exact u1
  · intro exp1 op targets ih1 ih2 e' h
    rw [simplify_exp] at h
    rcases h1 : simplify_exp exp1 with _ | e1' <;> rw [h1] at h <;> simp at h
    rcases h2 : simplify_exp (.Switch op targets) with _ | x' <;>
      rw [h2] at h <;> simp at h
    subst h
    refine ⟨fun hc => ?_, rfl⟩
    simp only [canon_seq_iff] at hc
    obtain ⟨u1, c1, c2⟩ := hc
    have h1' := ih1 e1' h1
    rw [canon_seq_iff]
    refine ⟨?_, h1'.1 c1, (ih2 x' h2).1 c2⟩
    rw [h1'.2]
    exact u1
  · intro exp1 body ih1 ih2 e' h
    rw [simplify_exp] at h
    rcases h1 : simplify_exp exp1 with _ | e1' <;> rw [h1] at h <;> simp at h
    rcases h2 : simplify_exp (.Loop body) with _ | x' <;> rw [h2] at h <;>
      simp at h
    subst h
    refine ⟨fun hc => ?_, rfl⟩
    simp only [canon_seq_iff] at hc
    obtain ⟨u1, c1, c2⟩ := hc
    have h1' := ih1 e1' h1
    rw [canon_seq_iff]
    refine ⟨?_, h1'.1 c1, (ih2 x' h2).1 c2⟩
    rw [h1'.2]
    exact u1
  · intro l' h
    rw [simplify_switch_targets] at h
    cases h
    intro
    rfl
  · intro v e rest ihe ihrest l' h
    rw [simplify_switch_targets] at h
    rcases h1 : simplify_exp e with _ | e' <;> rw [h1] at h <;> simp at h
    rcases h2 : simplify_switch_targets rest with _ | rest' <;>
      rw [h2] at h <;> simp at h
    subst h
    intro hc
    simp only [targets_canonical, Bool.and_eq_true] at hc
    simp only [targets_canonical, Bool.and_eq_true]
    exact ⟨(ihe e' h1).1 hc.1, ihrest rest' h2 hc.2⟩


/-! ## Claim theorem: canonical form preservation -/

/-- C7: if no `Sequence` node of the input tree has a `Sequence` as its
first component, the same holds of every successful output of
`simplify_exp`. -/
theorem simplify_preserves_sequence_canonical
    (T T' : Expression) (h : simplify_exp T = some T')
    (hc : exp_canonical T = true) : exp_canonical T' = true :=
  (simplify_exp_canonical_aux T T' h).1 hc

/-- Witness for C7 on a concrete canonical tree. -/
theorem simplify_preserves_sequence_canonical_witness :
    exp_canonical (.Sequence (.Statement .Nop) (.Statement .Return)) = true :=
  simplify_preserves_sequence_canonical
    (.Sequence (.Statement .Nop) (.Statement .Return))
    (.Sequence (.Statement .Nop) (.Statement .Return))
    (by rw [simplify_exp]
        simp [simplify_exp, rust_assert, statement_is_faillible_binop])
    (by simp [exp_canonical, Expression.isSequence])

/-! ## Lemmas: declaration re-indexing -/

/-- Inserting the current counter value preserves map well-formedness at
the incremented counter. -/
theorem mapOk_insert (m : Map DefId Nat) (c : Nat) (rid : DefId)
    (h : mapOk m c) : mapOk (mapInsert m rid c) (c + 1) := by
  obtain ⟨hb, hinj⟩ := h
  constructor
  · intro r i hr
    by_cases hcase : r = rid
    · subst hcase
      simp [mapInsert] at hr
      omega
    · simp [mapInsert, hcase] at hr
      exact Nat.lt_succ_of_lt (hb r i hr)
  · intro k1 k2 v h1 h2
    by_cases hk1 : k1 = rid <;> by_cases hk2 : k2 = rid
    · rw [hk1, hk2]
    · subst hk1
      simp [mapInsert] at h1
      simp [mapInsert, hk2] at h2
      have := hb k2 v h2
      omega
    · subst hk2
      simp [mapInsert] at h2
      simp [mapInsert, hk1] at h1
      have := hb k1 v h1
      omega
    · simp [mapInsert, hk1] at h1
      simp [mapInsert, hk2] at h2
      exact hinj k1 k2 v h1 h2

/-- Gluing an initial segment and the next `k` ids. -/
theorem range_append_range' (c k : Nat) :
    List.range c ++ List.range' c k = List.range (c + k) := by
  rw [List.range_eq_range', List.range_eq_range']
  have h := List.range'_append 0 c k 1
  simpa [Nat.add_comm] using h

/-- `type_ids_of` distributes over append. -/
theorem type_ids_of_append (xs ys : List (DeclarationGroup Nat Nat Nat)) :
    type_ids_of (xs ++ ys) = type_ids_of xs ++ type_ids_of ys := by
  simp [type_ids_of]

/-- `fun_ids_of` distributes over append. -/
theorem fun_ids_of_append (xs ys : List (DeclarationGroup Nat Nat Nat)) :
    fun_ids_of (xs ++ ys) = fun_ids_of xs ++ fun_ids_of ys := by
  simp [fun_ids_of]

/-- `global_ids_of` distributes over append. -/
theorem global_ids_of_append (xs ys : List (DeclarationGroup Nat Nat Nat)) :
    global_ids_of (xs ++ ys) = global_ids_of xs ++ global_ids_of ys := by
  simp [global_ids_of]

/-- Behavior of the inner `Type(Rec)` loop: it hands out the next
`rids.length` type ids in order, bumps only the type counter, touches no
other per-kind data and no accumulated groups, and preserves the type-map
well-formedness. -/
theorem assign_type_ids_spec (src : Map AnyDeclRid RdDeclInfo) :
    ∀ (rids : List DefId) (s : ConvState) (ids : List Nat) (s' : ConvState),
    assign_type_ids src s rids = some (ids, s') →
    ids = List.range' s.type_counter rids.length ∧
    s'.type_counter = s.type_counter + rids.length ∧
    s'.decls = s.decls ∧
    s'.fun_counter = s.fun_counter ∧
    s'.global_counter = s.global_counter ∧
    s'.fun_rid_to_id = s.fun_rid_to_id ∧
    s'.global_rid_to_id = s.global_rid_to_id ∧
    (mapOk s.type_rid_to_id s.type_counter →
      mapOk s'.type_rid_to_id s'.type_counter) := by
  intro rids
  induction rids with
  | nil =>
    intro s ids s' h
    rw [assign_type_ids] at h
    simp only [Option.some.injEq, Prod.mk.injEq] at h
    obtain ⟨h1, h2⟩ := h
    subst h1
    subst h2
    simp
  | cons rid rest ih =>
    intro s ids s' h
    rw [assign_type_ids] at h
    rcases hinfo : add_type_info src
        (type_insert s rid s.type_counter).decls_info rid s.type_counter
      with _ | info <;> simp only [hinfo] at h
    · simp at h
    · simp only [Option.bind_eq_bind', Option.some_bind] at h
      rcases hrec : assign_type_ids src
          (set_info (type_insert s rid s.type_counter) info) rest
        with _ | p <;> rw [hrec] at h
      · simp at h
      · simp only [Option.some_bind, Option.pure_def, Option.some.injEq,
          Prod.mk.injEq] at h
        obtain ⟨h1, h2⟩ := h
        subst h1
        subst h2
        obtain ⟨hids, hctr, hdecls, hfc, hgc, hfm, hgm, hok⟩ :=
          ih _ _ _ hrec
        simp only [set_info, type_insert] at hids hctr hdecls hfc hgc hfm hgm hok
        refine ⟨?_, ?_, ?_, ?_, ?_, ?_, ?_, ?_⟩
        · rw [hids]
          simp [List.range'_succ]
        · rw [hctr]
          simp
          omega
        · exact hdecls
        · exact hfc
        · exact hgc
        · exact hfm
        · exact hgm
        · intro hm
          exact hok (mapOk_insert _ _ _ hm)


/-- Behavior of the inner `Fun(Rec)` loop: it hands out the next
`rids.length` function ids in order, bumps only the function counter,
touches no other per-kind data and no accumulated groups, and preserves
the function-map well-formedness. -/
theorem assign_fun_ids_spec (src : Map AnyDeclRid RdDeclInfo) :
    ∀ (rids : List DefId) (s : ConvState) (ids : List Nat) (s' : ConvState),
    assign_fun_ids src s rids = some (ids, s') →
    ids = List.range' s.fun_counter rids.length ∧
    s'.fun_counter = s.fun_counter + rids.length ∧
    s'.decls = s.decls ∧
    s'.type_counter = s.type_counter ∧
    s'.global_counter = s.global_counter ∧
    s'.type_rid_to_id = s.type_rid_to_id ∧
    s'.global_rid_to_id = s.global_rid_to_id ∧
    (mapOk s.fun_rid_to_id s.fun_counter →
      mapOk s'.fun_rid_to_id s'.fun_counter) := by
  intro rids
  induction rids with
  | nil =>
    intro s ids s' h
    rw [assign_fun_ids] at h
    simp only [Option.some.injEq, Prod.mk.injEq] at h
    obtain ⟨h1, h2⟩ := h
    subst h1
    subst h2
    simp
  | cons rid rest ih =>
    intro s ids s' h
    rw [assign_fun_ids] at h
    rcases hinfo : add_function_info src
        (fun_insert s rid s.fun_counter).decls_info rid s.fun_counter
      with _ | info <;> simp only [hinfo] at h
    · simp at h
    · simp only [Option.bind_eq_bind', Option.some_bind] at h
      rcases hrec : assign_fun_ids src
          (set_info (fun_insert s rid s.fun_counter) info) rest
        with _ | p <;> rw [hrec] at h
      · simp at h
      · simp only [Option.some_bind, Option.pure_def, Option.some.injEq,
          Prod.mk.injEq] at h
        obtain ⟨h1, h2⟩ := h
        subst h1
        subst h2
        obtain ⟨hids, hctr, hdecls, hfc, hgc, hfm, hgm, hok⟩ :=
          ih _ _ _ hrec
        simp only [set_info, fun_insert] at hids hctr hdecls hfc hgc hfm hgm hok
        refine ⟨?_, ?_, ?_, ?_, ?_, ?_, ?_, ?_⟩
        · rw [hids]
          simp [List.range'_succ]
        · rw [hctr]
          simp
          omega
        · exact hdecls
        · exact hfc
        · exact hgc
        · exact hfm
        · exact hgm
        · intro hm
          exact hok (mapOk_insert _ _ _ hm)


/-- Behavior of the inner `Global(Rec)` loop: it hands out the next
`rids.length` global ids in order, bumps only the global counter, touches
no other per-kind data and no accumulated groups, and preserves the
global-map well-formedness. -/
theorem assign_global_ids_spec (src : Map AnyDeclRid RdDeclInfo) :
    ∀ (rids : List DefId) (s : ConvState) (ids : List Nat) (s' : ConvState),
    assign_global_ids src s rids = some (ids, s') →
    ids = List.range' s.global_counter rids.length ∧
    s'.global_counter = s.global_counter + rids.length ∧
    s'.decls = s.decls ∧
    s'.fun_counter = s.fun_counter ∧
    s'.type_counter = s.type_counter ∧
    s'.fun_rid_to_id = s.fun_rid_to_id ∧
    s'.type_rid_to_id = s.type_rid_to_id ∧
    (mapOk s.global_rid_to_id s.global_counter →
      mapOk s'.global_rid_to_id s'.global_counter) := by
  intro rids
  induction rids with
  | nil =>
    intro s ids s' h
    rw [assign_global_ids] at h
    simp only [Option.some.injEq, Prod.mk.injEq] at h
    obtain ⟨h1, h2⟩ := h
    subst h1
    subst h2
    simp
  | cons rid rest ih =>
    intro s ids s' h
    rw [assign_global_ids] at h
    rcases hinfo : add_global_info src
        (global_insert s rid s.global_counter).decls_info rid s.global_counter
      with _ | info <;> simp only [hinfo] at h
    · simp at h
    · simp only [Option.bind_eq_bind', Option.some_bind] at h
      rcases hrec : assign_global_ids src
          (set_info (global_insert s rid s.global_counter) info) rest
        with _ | p <;> rw [hrec] at h
      · simp at h
      · simp only [Option.some_bind, Option.pure_def, Option.some.injEq,
          Prod.mk.injEq] at h
        obtain ⟨h1, h2⟩ := h
        subst h1
        subst h2
        obtain ⟨hids, hctr, hdecls, hfc, hgc, hfm, hgm, hok⟩ :=
          ih _ _ _ hrec
        simp only [set_info, global_insert] at hids hctr hdecls hfc hgc hfm hgm hok
        refine ⟨?_, ?_, ?_, ?_, ?_, ?_, ?_, ?_⟩
        · rw [hids]
          simp [List.range'_succ]
        · rw [hctr]
          simp
          omega
        · exact hdecls
        · exact hfc
        · exact hgc
        · exact hfm
        · exact hgm
        · intro hm
          exact hok (mapOk_insert _ _ _ hm)


/-- One conversion step succeeds into a state that keeps the invariant and
appends exactly one group of the same kind and recursion shape. -/
theorem convert_decl_inv (src : Map AnyDeclRid RdDeclInfo) (s : ConvState)
    (d : DeclarationGroup DefId DefId DefId) (s' : ConvState)
    (h : convert_decl src s d = some s') (hinv : ConvInv s) :
    ConvInv s' ∧
    s'.decls.map decl_shape = s.decls.map decl_shape ++ [decl_shape d] := by
  obtain ⟨ht, hf, hg, hmt, hmf, hmg⟩ := hinv
  simp only [type_ids_of, fun_ids_of, global_ids_of] at ht hf hg
  cases d with
  | Type' g =>
    cases g with
    | NonRec rid =>
      rw [convert_decl] at h
      rcases hinfo : add_type_info src
          (type_insert s rid s.type_counter).decls_info rid s.type_counter
        with _ | info <;> simp only [hinfo] at h
      · simp at h
      · simp only [Option.bind_eq_bind', Option.some_bind, Option.pure_def,
          Option.some.injEq] at h
        subst h
        constructor
        · refine ⟨?_, ?_, ?_, ?_, ?_, ?_⟩
          · simp [push_decl, set_info, type_insert, type_ids_of_append,
              type_ids_of, group_type_ids, ht, List.range_succ]
          · simp [push_decl, set_info, type_insert, fun_ids_of_append,
              fun_ids_of, group_fun_ids, hf]
          · simp [push_decl, set_info, type_insert, global_ids_of_append,
              global_ids_of, group_global_ids, hg]
          · simpa [push_decl, set_info, type_insert] using
              mapOk_insert _ _ _ hmt
          · simpa [push_decl, set_info, type_insert] using hmf
          · simpa [push_decl, set_info, type_insert] using hmg
        · simp [push_decl, set_info, type_insert, decl_shape, gdecl_shape]
    | Rec rids =>
      rw [convert_decl] at h
      rcases hrec : assign_type_ids src s rids with _ | p <;> rw [hrec] at h
      · simp at h
      · simp only [Option.bind_eq_bind', Option.some_bind, Option.pure_def,
          Option.some.injEq] at h
        subst h
        obtain ⟨hids, hctr, hdecls, hfc, hgc, hfm, hgm, hok⟩ :=
          assign_type_ids_spec src rids s p.1 p.2 hrec
        constructor
        · refine ⟨?_, ?_, ?_, ?_, ?_, ?_⟩
          · simp [push_decl, type_ids_of_append, type_ids_of, group_type_ids,
              hdecls, ht, hids, hctr, range_append_range']
          · simp [push_decl, fun_ids_of_append, fun_ids_of, group_fun_ids,
              hdecls, hf, hfc]
          · simp [push_decl, global_ids_of_append, global_ids_of,
              group_global_ids, hdecls, hg, hgc]
          · simpa [push_decl] using hok hmt
          · simp only [push_decl, hfm, hfc]
            exact hmf
          · simp only [push_decl, hgm, hgc]
            exact hmg
        · simp [push_decl, hdecls, decl_shape, gdecl_shape, hids]
  | Fun g =>
    cases g with
    | NonRec rid =>
      rw [convert_decl] at h
      rcases hinfo : add_function_info src
          (fun_insert s rid s.fun_counter).decls_info rid s.fun_counter
        with _ | info <;> simp only [hinfo] at h
      · simp at h
      · simp only [Option.bind_eq_bind', Option.some_bind, Option.pure_def,
          Option.some.injEq] at h
        subst h
        constructor
        · refine ⟨?_, ?_, ?_, ?_, ?_, ?_⟩
          · simp [push_decl, set_info, fun_insert, type_ids_of_append,
              type_ids_of, group_type_ids, ht]
          · simp [push_decl, set_info, fun_insert, fun_ids_of_append,
              fun_ids_of, group_fun_ids, hf, List.range_succ]
          · simp [push_decl, set_info, fun_insert, global_ids_of_append,
              global_ids_of, group_global_ids, hg]
          · simpa [push_decl, set_info, fun_insert] using hmt
          · simpa [push_decl, set_info, fun_insert] using
              mapOk_insert _ _ _ hmf
          · simpa [push_decl, set_info, fun_insert] using hmg
        · simp [push_decl, set_info, fun_insert, decl_shape, gdecl_shape]
    | Rec rids =>
      rw [convert_decl] at h
      rcases hrec : assign_fun_ids src s rids with _ | p <;> rw [hrec] at h
      · simp at h
      · simp only [Option.bind_eq_bind', Option.some_bind, Option.pure_def,
          Option.some.injEq] at h
        subst h
        obtain ⟨hids, hctr, hdecls, htc, hgc, htm, hgm, hok⟩ :=
          assign_fun_ids_spec src rids s p.1 p.2 hrec
        constructor
        · refine ⟨?_, ?_, ?_, ?_, ?_, ?_⟩
          · simp [push_decl, type_ids_of_append, type_ids_of, group_type_ids,
              hdecls, ht, htc]
          · simp [push_decl, fun_ids_of_append, fun_ids_of, group_fun_ids,
              hdecls, hf, hids, hctr, range_append_range']
          · simp [push_decl, global_ids_of_append, global_ids_of,
              group_global_ids, hdecls, hg, hgc]
          · simp only [push_decl, htm, htc]
            exact hmt
          · simpa [push_decl] using hok hmf
          · simp only [push_decl, hgm, hgc]
            exact hmg
        · simp [push_decl, hdecls, decl_shape, gdecl_shape, hids]
  | Global g =>
    cases g with
    | NonRec rid =>
      rw [convert_decl] at h
      rcases hinfo : add_global_info src
          (global_insert s rid s.global_counter).decls_info rid
          s.global_counter
        with _ | info <;> simp only [hinfo] at h
      · simp at h
      · simp only [Option.bind_eq_bind', Option.some_bind, Option.pure_def,
          Option.some.injEq] at h
        subst h
        constructor
        · refine ⟨?_, ?_, ?_, ?_, ?_, ?_⟩
          · simp [push_decl, set_info, global_insert, type_ids_of_append,
              type_ids_of, group_type_ids, ht]
          · simp [push_decl, set_info, global_insert, fun_ids_of_append,
              fun_ids_of, group_fun_ids, hf]
          · simp [push_decl, set_info, global_insert, global_ids_of_append,
              global_ids_of, group_global_ids, hg, List.range_succ]
          · simpa [push_decl, set_info, global_insert] using hmt
          · simpa [push_decl, set_info, global_insert] using hmf
          · simpa [push_decl, set_info, global_insert] using
              mapOk_insert _ _ _ hmg
        · simp [push_decl, set_info, global_insert, decl_shape, gdecl_shape]
    | Rec rids =>
      rw [convert_decl] at h
      rcases hrec : assign_global_ids src s rids with _ | p <;> rw [hrec] at h
      · simp at h
      · simp only [Option.bind_eq_bind', Option.some_bind, Option.pure_def,
          Option.some.injEq] at h
        subst h
        obtain ⟨hids, hctr, hdecls, hfc, htc, hfm, htm, hok⟩ :=
          assign_global_ids_spec src rids s p.1 p.2 hrec
        constructor
        · refine ⟨?_, ?_, ?_, ?_, ?_, ?_⟩
          · simp [push_decl, type_ids_of_append, type_ids_of, group_type_ids,
              hdecls, ht, htc]
          · simp [push_decl, fun_ids_of_append, fun_ids_of, group_fun_ids,
              hdecls, hf, hfc]
          · simp [push_decl, global_ids_of_append, global_ids_of,
              group_global_ids, hdecls, hg, hids, hctr, range_append_range']
          · simp only [push_decl, htm, htc]
            exact hmt
          · simp only [push_decl, hfm, hfc]
            exact hmf
          · simpa [push_decl] using hok hmg
        · simp [push_decl, hdecls, decl_shape, gdecl_shape, hids]


/-- The empty map is well-formed at any counter. -/
theorem mapOk_empty (c : Nat) : mapOk (mapEmpty : Map DefId Nat) c := by
  constructor
  · intro r i h
    simp [mapEmpty] at h
  · intro k1 k2 v h1 h2
    simp [mapEmpty] at h1

/-- The initial loop state satisfies the invariant. -/
theorem convInv_init : ConvInv initConvState :=
  ⟨rfl, rfl, rfl, mapOk_empty 0, mapOk_empty 0, mapOk_empty 0⟩

/-- The invariant propagates through the whole declaration loop, which maps
each input group to one output group of the same kind and shape. -/
theorem convert_decls_inv (src : Map AnyDeclRid RdDeclInfo) :
    ∀ (ds : List (DeclarationGroup DefId DefId DefId)) (s s' : ConvState),
    convert_decls src s ds = some s' → ConvInv s →
    ConvInv s' ∧
    s'.decls.map decl_shape = s.decls.map decl_shape ++ ds.map decl_shape := by
  intro ds
  induction ds with
  | nil =>
    intro s s' h hinv
    rw [convert_decls] at h
    cases h
    simpa using hinv
  | cons d rest ih =>
    intro s s' h hinv
    rw [convert_decls] at h
    rcases hd : convert_decl src s d with _ | s1 <;> rw [hd] at h
    · simp at h
    · simp only [Option.bind_eq_bind', Option.some_bind] at h
      obtain ⟨hinv1, hshape1⟩ := convert_decl_inv src s d s1 hd hinv
      obtain ⟨hinv2, hshape2⟩ := ih s1 s' h hinv1
      refine ⟨hinv2, ?_⟩
      rw [hshape2, hshape1]
      simp

/-! ## Claim theorem: declaration re-indexing -/

/-- C10: a successful `rust_to_local_ids` keeps the declaration-group
structure — each output group has the kind and recursion shape (and `Rec`
length) of the input group at the same position, hence also the same list
length — hands out local ids sequentially per kind (`0, 1, 2, ...` in order
of first appearance), and produces rust-to-local maps that send distinct
rust ids of a kind to distinct local ids. -/
theorem rust_to_local_ids_preserves_structure
    (reordered : DeclarationsGroups) (out : OrderedDecls)
    (h : rust_to_local_ids reordered = some out) :
    out.decls.map decl_shape = reordered.decls.map decl_shape ∧
    type_ids_of out.decls = List.range (type_ids_of out.decls).length ∧
    fun_ids_of out.decls = List.range (fun_ids_of out.decls).length ∧
    global_ids_of out.decls = List.range (global_ids_of out.decls).length ∧
    mapInjective out.type_rid_to_id ∧
    mapInjective out.fun_rid_to_id ∧
    mapInjective out.global_rid_to_id := by
  rw [rust_to_local_ids] at h
  rcases hc : convert_decls reordered.decls_info initConvState reordered.decls
    with _ | sFin <;> rw [hc] at h
  · simp at h
  · simp only [Option.bind_eq_bind', Option.some_bind, Option.pure_def,
      Option.some.injEq] at h
    subst h
    obtain ⟨hinv, hshape⟩ := convert_decls_inv _ _ _ _ hc convInv_init
    obtain ⟨ht, hf, hg, hmt, hmf, hmg⟩ := hinv
    refine ⟨?_, ?_, ?_, ?_, hmt.2, hmf.2, hmg.2⟩
    · simpa [initConvState] using hshape
    · simp only [ht, List.length_range]
    · simp only [hf, List.length_range]
    · simp only [hg, List.length_range]

/-- Witness for C10 on the concrete reordered input `exGroups`. -/
theorem rust_to_local_ids_preserves_structure_witness :
    exOrdered.decls.map decl_shape = exGroups.decls.map decl_shape ∧
    type_ids_of exOrdered.decls =
      List.range (type_ids_of exOrdered.decls).length ∧
    fun_ids_of exOrdered.decls =
      List.range (fun_ids_of exOrdered.decls).length ∧
    global_ids_of exOrdered.decls =
      List.range (global_ids_of exOrdered.decls).length ∧
    mapInjective exOrdered.type_rid_to_id ∧
    mapInjective exOrdered.fun_rid_to_id ∧
    mapInjective exOrdered.global_rid_to_id :=
  rust_to_local_ids_preserves_structure exGroups exOrdered rfl

end Candy
